import Mathlib

/-!
# hyde-config: flattening a TOML document into an env file and a Hyprland file

A shallow embedding of `main.go` and theorems about it.

Conventions of the embedding.

* A Go `string` is a sequence of bytes. It is modelled by a `String` that holds
  one character per byte, so that `String.length` is Go's `len` and dropping
  `n` characters is the slice `s[n:]`. For ASCII text this is the text itself.
* A Go `map` has no iteration order. A map is modelled by the list of its
  entries in the order a `range` loop happens to visit them; the order of
  that list is the only thing a run can change.
* `strings.ToUpper` belongs to the Go library. The flatteners take it as the
  argument `upper`; `asciiUpper` is what it does on ASCII text.
* `*result = append(*result, line)` becomes `result ++ [line]`, the slice being
  passed in and returned.
-/

namespace HydeConfig

/-! ## Go strings -/

/-- Go's `strings.HasPrefix(s, pre)`. -/
def hasPrefix (s pre : String) : Bool := pre.data.isPrefixOf s.data

/-- Go's slice expression `s[n:]` (for `n ≤ len(s)`). -/
def sliceFrom (s : String) (n : Nat) : String := ⟨s.data.drop n⟩

/-- Go's `strings.Join(items, sep)`. -/
def join (sep : String) : List String → String
  | [] => ""
  | [a] => a
  | a :: b :: rest => a ++ sep ++ join sep (b :: rest)

/-- Replaces the first occurrence of `old` in the bytes `s` by `new`. -/
def replaceFirstBytes (old new : List Char) : List Char → List Char
  | [] => if old.isPrefixOf [] then new else []
  | c :: cs =>
    if old.isPrefixOf (c :: cs) then new ++ (c :: cs).drop old.length
    else c :: replaceFirstBytes old new cs

/-- Go's `strings.Replace(s, old, new, 1)`. -/
def replaceFirst (s old new : String) : String :=
  ⟨replaceFirstBytes old.data new.data s.data⟩

/-- The upper-case form of one ASCII byte. -/
def upperByte (c : Char) : Char :=
  if 97 ≤ c.toNat ∧ c.toNat ≤ 122 then Char.ofNat (c.toNat - 32) else c

/-- What `strings.ToUpper` does on ASCII text: `a`..`z` become `A`..`Z`. -/
def asciiUpper (s : String) : String := ⟨s.data.map upperByte⟩

/-! ## Documents -/

/-- A value of a parsed TOML document, as `toml.Unmarshal` stores it in an
`interface{}`. A `float64` and a date or time value are only ever printed, so
they are carried as the text `fmt`'s `%v` verb prints for them. -/
inductive Value where
  | mapping (entries : List (String × Value))
  | seq (items : List Value)
  | bool (b : Bool)
  | int (i : Int)
  | float (text : String)
  | str (s : String)
  | other (text : String)

/-- The Go type `TomlMap`: the entries in the order `range` visits them. -/
abbrev TomlMap := List (String × Value)

/-- The Go type `EnvVars`. -/
abbrev EnvVars := List String

/-- The Go type `HyprVars`. -/
abbrev HyprVars := List String

/-- Go's `strconv.FormatBool`, also what `%v` and `%t` print for a `bool`. -/
def formatBool (b : Bool) : String := if b then "true" else "false"

/-- What `%v` prints for an `int64`. -/
def fmtInt (i : Int) : String := toString i

/-- Byte-wise lexicographic `a ≤ b`, the order of Go's `<` on strings. -/
def bytesLE : List Char → List Char → Bool
  | [], _ => true
  | _ :: _, [] => false
  | a :: as, b :: bs =>
    if a.toNat < b.toNat then true
    else if b.toNat < a.toNat then false
    else bytesLE as bs

/-- Inserts a rendered map entry before the first entry with a larger key. -/
def insertByKey (e : String × String) : List (String × String) → List (String × String)
  | [] => [e]
  | f :: rest => if bytesLE e.1.data f.1.data then e :: f :: rest else f :: insertByKey e rest

/-- The entries sorted by key: `fmt` prints a map in key order. -/
def sortByKey : List (String × String) → List (String × String)
  | [] => []
  | e :: rest => insertByKey e (sortByKey rest)

mutual
/-- What `fmt`'s `%v` verb prints for a value held in an `interface{}`. -/
def fmtV (v : Value) : String :=
  match v with
  | .mapping entries =>
    "map[" ++ join " " ((sortByKey (fmtEntries entries)).map (fun e => e.1 ++ ":" ++ e.2)) ++ "]"
  | .seq items => "[" ++ join " " (fmtItems items) ++ "]"
  | .bool b => formatBool b
  | .int i => fmtInt i
  | .float text => text
  | .str s => s
  | .other text => text
termination_by structural v
/-- The `%v` texts of the elements of a slice. -/
def fmtItems (items : List Value) : List String :=
  match items with
  | [] => []
  | v :: rest => fmtV v :: fmtItems rest
termination_by structural items
/-- The key and `%v` text of each entry of a map. -/
def fmtEntries (entries : List (String × Value)) : List (String × String) :=
  match entries with
  | [] => []
  | e :: rest => fmtEntry e :: fmtEntries rest
termination_by structural entries
/-- The key and `%v` text of one entry of a map. -/
def fmtEntry (e : String × Value) : String × String :=
  match e with
  | (k, v) => (k, fmtV v)
termination_by structural e
end

/-- The lookup `m[k]` in a Go `map[string]bool`: `false` for a missing key. -/
def lookupBool (m : List (String × Bool)) (k : String) : Bool :=
  match m.lookup k with
  | some b => b
  | none => false

/-! ## The Env flattener -/

/-- The map `ignoredKeys` built by `parseTomlToEnvWithContent`. -/
def envIgnoredKeys : List (String × Bool) :=
  [("$schema", true), ("$SCHEMA", true), ("hyprland", true), ("hyprland-ipc", true),
   ("hyprland-env", true), ("hyprland-start", true)]

mutual
/-- The Go function `flattenDict`: the loop over the entries of `data`. -/
def flattenDict (upper : String → String) (data : TomlMap) (parentKey : String)
    (ignoredKeys : List (String × Bool)) (result : EnvVars) (exportMode : Bool) : EnvVars :=
  match data with
  | [] => result
  | e :: rest =>
    flattenDict upper rest parentKey ignoredKeys
      (flattenEntry upper e parentKey ignoredKeys result exportMode) exportMode
termination_by structural data
/-- The body of the loop of `flattenDict` for one entry `k, v`. -/
def flattenEntry (upper : String → String) (e : String × Value) (parentKey : String)
    (ignoredKeys : List (String × Bool)) (result : EnvVars) (exportMode : Bool) : EnvVars :=
  match e with
  | (k, v) =>
    if lookupBool ignoredKeys k || (parentKey != "" && hasPrefix parentKey "hyprland") then
      result
    else if hasPrefix k "$" then
      result
    else
      flattenVal upper v
        (if parentKey != "" then parentKey ++ "_" ++ upper k else upper k)
        ignoredKeys result exportMode
termination_by structural e
/-- The type switch of `flattenDict` on the value `v` stored under `newKey`. -/
def flattenVal (upper : String → String) (v : Value) (newKey : String)
    (ignoredKeys : List (String × Bool)) (result : EnvVars) (exportMode : Bool) : EnvVars :=
  match v with
  | .mapping val => flattenDict upper val newKey ignoredKeys result exportMode
  | .seq val =>
    let arrayItems := val.map (fun item => "\"" ++ fmtV item ++ "\"")
    let value := "(" ++ join " " arrayItems ++ ")"
    if exportMode then result ++ ["export " ++ newKey ++ "=" ++ value]
    else result ++ [newKey ++ "=" ++ value]
  | .bool val =>
    let value := formatBool val
    if exportMode then result ++ ["export " ++ newKey ++ "=" ++ value]
    else result ++ [newKey ++ "=" ++ value]
  | .int val =>
    if exportMode then result ++ ["export " ++ newKey ++ "=" ++ fmtInt val]
    else result ++ [newKey ++ "=" ++ fmtInt val]
  | .float text =>
    if exportMode then result ++ ["export " ++ newKey ++ "=" ++ text]
    else result ++ [newKey ++ "=" ++ text]
  | .str s =>
    if exportMode then result ++ ["export " ++ newKey ++ "=\"" ++ s ++ "\""]
    else result ++ [newKey ++ "=\"" ++ s ++ "\""]
  | .other text =>
    if exportMode then result ++ ["export " ++ newKey ++ "=\"" ++ text ++ "\""]
    else result ++ [newKey ++ "=\"" ++ text ++ "\""]
termination_by structural v
end

/-! ## The Hypr flattener -/

mutual
/-- The Go function `flattenHyprDict`: the loop over the entries of `data`. -/
def flattenHyprDict (upper : String → String) (data : TomlMap) (parentKey : String)
    (result : HyprVars) : HyprVars :=
  match data with
  | [] => result
  | e :: rest =>
    flattenHyprDict upper rest parentKey (flattenHyprEntry upper e parentKey result)
termination_by structural data
/-- The body of the loop of `flattenHyprDict` for one entry `k, v`. -/
def flattenHyprEntry (upper : String → String) (e : String × Value) (parentKey : String)
    (result : HyprVars) : HyprVars :=
  match e with
  | (k, v) =>
    let isHyprlandSection := hasPrefix k "hyprland" || hasPrefix parentKey "hyprland"
    if isHyprlandSection then
      let newKey0 := if hasPrefix k "hyprland_" then replaceFirst k "hyprland_" "" else k
      let newKey :=
        if parentKey != "" && !hasPrefix parentKey "hyprland" then
          parentKey ++ "_" ++ newKey0
        else if hasPrefix parentKey "hyprland" then
          if parentKey.length > 9 then "$" ++ sliceFrom parentKey 9 ++ "." ++ upper newKey0
          else "$" ++ upper newKey0
        else newKey0
      flattenHyprVal upper v newKey result
    else
      result
termination_by structural e
/-- The type switch of `flattenHyprDict` on the value `v` stored under `newKey`. -/
def flattenHyprVal (upper : String → String) (v : Value) (newKey : String)
    (result : HyprVars) : HyprVars :=
  match v with
  | .mapping val => flattenHyprDict upper val newKey result
  | .seq val =>
    let arrayItems := val.map (fun item => fmtV item)
    let value := join ", " arrayItems
    result ++ [newKey ++ "=" ++ value]
  | .bool val => result ++ [newKey ++ "=" ++ formatBool val]
  | .int val => result ++ [newKey ++ "=" ++ fmtInt val]
  | .float text => result ++ [newKey ++ "=" ++ text]
  | .str s => result ++ [newKey ++ "=" ++ s]
  | .other text => result ++ [newKey ++ "=" ++ text]
termination_by structural v
end

/-! ## Files -/

/-- The regular files of the filesystem: the bytes stored under each path.
Directories are not tracked: `main` creates the parents of the output files
before the pipeline runs. -/
abbrev FS := String → Option String

/-- The filesystem after `path` is given the content `content`. -/
def FS.put (fs : FS) (path content : String) : FS :=
  fun p => if p = path then some content else fs p

/-- The filesystem after `os.Remove(path)` succeeded. -/
def FS.remove (fs : FS) (path : String) : FS :=
  fun p => if p = path then none else fs p

/-- The filesystem after `os.Rename(oldPath, newPath)` succeeded. -/
def FS.rename (fs : FS) (oldPath newPath : String) : FS :=
  fun p => if p = newPath then fs oldPath else if p = oldPath then none else fs p

/-- The first step of a branch's write that the operating system fails, if
any. A failed write or flush leaves the first `n` bytes of the data in the
file; `removeFails` says whether the `os.Remove` after a failed rename fails
too. -/
inductive Fault where
  | none
  | mkdir
  | create
  | write (n : Nat)
  | flush (n : Nat)
  | sync
  | rename (removeFails : Bool)

/-- The errors `writeLinesToFile` returns, one per `fmt.Errorf` of it. -/
inductive WriteError where
  | noLines
  | mkdir
  | create
  | write
  | flush
  | sync

/-- The bytes `writeLinesToFile` hands to the writer: each line and `\n`. -/
def fileData : List String → String
  | [] => ""
  | line :: rest => line ++ "\n" ++ fileData rest

/-- The Go function `writeLinesToFile`: the error it returns (`none` for
`nil`) and the filesystem it leaves. -/
def writeLinesToFile (filename : String) (lines : List String) (fault : Fault) (fs : FS) :
    Option WriteError × FS :=
  if lines.length == 0 then (some .noLines, fs)
  else
    match fault with
    | .mkdir => (some .mkdir, fs)
    | .create => (some .create, fs)
    | .write n => (some .write, fs.put filename (⟨(fileData lines).data.take n⟩))
    | .flush n => (some .flush, fs.put filename (⟨(fileData lines).data.take n⟩))
    | .sync => (some .sync, fs.put filename (fileData lines))
    | .none => (none, fs.put filename (fileData lines))
    | .rename _ => (none, fs.put filename (fileData lines))

/-- The Go function `parseTomlToEnvWithContent`: its result and the filesystem
it leaves. -/
def parseTomlToEnvWithContent (upper : String → String) (tomlContent : TomlMap)
    (envFile : String) (exportMode : Bool) (fault : Fault) (fs : FS) : Bool × FS :=
  if tomlContent.length == 0 then (false, fs)
  else
    let envVars := flattenDict upper tomlContent "" envIgnoredKeys [] exportMode
    if envVars.length == 0 then (false, fs)
    else if envFile != "" then
      let tempFile := envFile ++ ".tmp"
      match writeLinesToFile tempFile envVars fault fs with
      | (some _, fs1) => (false, fs1)
      | (none, fs1) =>
        match fault with
        | .rename removeFails => (false, if removeFails then fs1 else fs1.remove tempFile)
        | _ => (true, fs1.rename tempFile envFile)
    else (true, fs)

/-- The Go function `parseTomlToHyprWithContent`: its result and the
filesystem it leaves. -/
def parseTomlToHyprWithContent (upper : String → String) (tomlContent : TomlMap)
    (hyprFile : String) (fault : Fault) (fs : FS) : Bool × FS :=
  if tomlContent.length == 0 then (false, fs)
  else
    let hyprVars := flattenHyprDict upper tomlContent "" []
    if hyprVars.length == 0 then (false, fs)
    else if hyprFile != "" then
      let tempFile := hyprFile ++ ".tmp"
      match writeLinesToFile tempFile hyprVars fault fs with
      | (some _, fs1) => (false, fs1)
      | (none, fs1) =>
        match fault with
        | .rename removeFails => (false, if removeFails then fs1 else fs1.remove tempFile)
        | _ => (true, fs1.rename tempFile hyprFile)
    else (true, fs)

/-- The errors `loadTomlFile` returns, one per `fmt.Errorf` of it. -/
inductive LoadError where
  | access
  | read
  | empty
  | parse

/-- The Go function `loadTomlFile`. `parse` is `toml.Unmarshal` (`none` when it
returns an error) and `readFails` says whether `os.ReadFile` fails. -/
def loadTomlFile (parse : String → Option TomlMap) (readFails : Bool) (tomlFile : String)
    (fs : FS) : Except LoadError TomlMap :=
  match fs tomlFile with
  | none => .error .access
  | some data =>
    if readFails then .error .read
    else if data.length == 0 then .error .empty
    else
      match parse data with
      | none => .error .parse
      | some tomlContent => .ok tomlContent

/-- What the operating system does during one run of the pipeline. -/
structure RunIO where
  readFails : Bool
  envFault : Fault
  hyprFault : Fault

/-- The Go function `parseConfigFiles`: its result and the filesystem it
leaves. The two goroutines are run one after the other, the Env branch
first; they write to different files when the two output paths differ. -/
def parseConfigFiles (upper : String → String) (parse : String → Option TomlMap) (io : RunIO)
    (tomlFile envFile hyprFile : String) (exportMode : Bool) (fs : FS) : Bool × FS :=
  match fs tomlFile with
  | none => (false, fs)
  | some content =>
    if content.length == 0 then (false, fs)
    else
      match loadTomlFile parse io.readFails tomlFile fs with
      | .error _ => (false, fs)
      | .ok tomlContent =>
        if tomlContent.length == 0 then (false, fs)
        else
          let r1 := parseTomlToEnvWithContent upper tomlContent envFile exportMode io.envFault fs
          let r2 := parseTomlToHyprWithContent upper tomlContent hyprFile io.hyprFault r1.2
          (r1.1 && r2.1, r2.2)

/-! ## The watch loop -/

/-- Go's `filepath.Base` on a Unix path. -/
def filepathBase (path : String) : String :=
  if path = "" then "."
  else
    let stripped := path.data.reverse.dropWhile (fun c => c == '/')
    if stripped = [] then "/"
    else ⟨(stripped.takeWhile (fun c => c != '/')).reverse⟩

/-- The smallest `time.Duration`, in nanoseconds. -/
def minDuration : Int := -9223372036854775808

/-- The largest `time.Duration`, in nanoseconds. -/
def maxDuration : Int := 9223372036854775807

/-- Go's `t.Sub(u)` on instants given in nanoseconds: the difference, held
within the range of a `time.Duration`. -/
def timeSub (t u : Int) : Int := max minDuration (min maxDuration (t - u))

/-- The constant `debounceInterval` of `watchFile`: 300 ms, in nanoseconds. -/
def debounceInterval : Int := 300 * 1000000

/-- The bit `fsnotify.Create`. -/
def opCreate : Nat := 1

/-- The bit `fsnotify.Write`. -/
def opWrite : Nat := 2

/-- One `fsnotify.Event` taken from `watcher.Events`, with what the loop
observes while it handles it: the result of `os.Stat(tomlFile)` (the
modification time, `none` on error) and the clock read by `time.Since`,
both in nanoseconds. -/
structure Observed where
  name : String
  op : Nat
  stat : Option Int
  now : Int

/-- One turn of the loop of `watchFile` on an event: the new value of
`lastMod` and whether `parseConfigFiles` is called. -/
def watchStep (tomlFile : String) (lastMod : Int) (o : Observed) : Int × Bool :=
  if filepathBase o.name != filepathBase tomlFile then (lastMod, false)
  else if o.op &&& (opWrite ||| opCreate) != 0 then
    match o.stat with
    | none => (lastMod, false)
    | some modTime =>
      let shouldProcess := decide (timeSub o.now lastMod > debounceInterval)
      (if shouldProcess then modTime else lastMod, shouldProcess)
  else (lastMod, false)

/-- The loop of `watchFile` over the events received, from the value
`lastMod` has when the loop starts: the final `lastMod` and the number of
calls of `parseConfigFiles`. -/
def watchLoop (tomlFile : String) (lastMod : Int) : List Observed → Int × Nat
  | [] => (lastMod, 0)
  | o :: rest =>
    let r := watchStep tomlFile lastMod o
    let t := watchLoop tomlFile r.1 rest
    (t.1, (if r.2 then 1 else 0) + t.2)

/-! ## Specification-side definitions -/

/-- The reserved keys of `envIgnoredKeys` that name a `hyprland` section. -/
def isReservedHyprland (k : String) : Bool :=
  k == "hyprland" || k == "hyprland-ipc" || k == "hyprland-env" || k == "hyprland-start"

/-- Whether a value is a nested mapping. -/
def Value.isMapping : Value → Bool
  | .mapping _ => true
  | _ => false

/-- The word `P` put before an Env line: `export ` in export mode. -/
def exportWord (exportMode : Bool) : String := if exportMode then "export " else ""

/-- The text `R(v)` an Env line shows for a value that is not a mapping: a
sequence in parentheses with its elements in double quotes, a boolean or a
number bare, anything else in double quotes. -/
def envValue : Value → String
  | .mapping _ => ""
  | .seq items => "(" ++ join " " (items.map (fun item => "\"" ++ fmtV item ++ "\"")) ++ ")"
  | .bool b => if b then "true" else "false"
  | .int i => toString i
  | .float text => text
  | .str s => "\"" ++ s ++ "\""
  | .other text => "\"" ++ text ++ "\""

/-- The Env line `P ++ K ++ "=" ++ R(v)` for the key path `K` and the value `v`. -/
def envLine (exportMode : Bool) (K : String) (v : Value) : String :=
  exportWord exportMode ++ K ++ "=" ++ envValue v

mutual
/-- The non-mapping values of a document, each with the chain of keys
`k1, ..., kn` that leads to it, in the order the entries are listed. -/
def leaves (data : TomlMap) : List (List String × Value) :=
  match data with
  | [] => []
  | e :: rest => leavesEntry e ++ leaves rest
termination_by structural data
/-- The non-mapping values reached through one entry. -/
def leavesEntry (e : String × Value) : List (List String × Value) :=
  match e with
  | (k, v) => (leavesVal v).map (fun c => (k :: c.1, c.2))
termination_by structural e
/-- The non-mapping values reached in a value, with the keys below it. -/
def leavesVal (v : Value) : List (List String × Value) :=
  match v with
  | .mapping val => leaves val
  | .seq items => [([], .seq items)]
  | .bool b => [([], .bool b)]
  | .int i => [([], .int i)]
  | .float text => [([], .float text)]
  | .str s => [([], .str s)]
  | .other text => [([], .other text)]
termination_by structural v
end

/-- A key that is neither a reserved key nor starts with `$`. -/
def admissibleKey (k : String) : Bool := !lookupBool envIgnoredKeys k && !hasPrefix k "$"

/-- The key path `UPPER(k1)_UPPER(k2)_..._UPPER(kn)` of a chain of keys. -/
def joinedKeyPath (upper : String → String) (ks : List String) : String :=
  join "_" (ks.map upper)

/-- The key path below `parent` for the key `k`: `uppercase(k)` at the root,
which is where the parent path is empty, else `parent_UPPERKEY`. -/
def envKeyStep (upper : String → String) (parent k : String) : String :=
  if parent != "" then parent ++ "_" ++ upper k else upper k

/-- The key path of a chain of keys, built from the root one key at a time. -/
def envKeyPath (upper : String → String) (ks : List String) : String :=
  ks.foldl (envKeyStep upper) ""

/-- Two listings of the same document: the same entries, possibly visited in
another order, in the document and in every mapping reached through
mappings. -/
inductive SameMap : TomlMap → TomlMap → Prop
  | refl (m : TomlMap) : SameMap m m
  | swap (a b : String × Value) (m : TomlMap) : SameMap (a :: b :: m) (b :: a :: m)
  | cons (e : String × Value) {m m₂ : TomlMap} : SameMap m m₂ → SameMap (e :: m) (e :: m₂)
  | nested (k : String) {c c₂ : TomlMap} (m : TomlMap) :
      SameMap c c₂ → SameMap ((k, .mapping c) :: m) ((k, .mapping c₂) :: m)
  | trans {a b c : TomlMap} : SameMap a b → SameMap b c → SameMap a c

/-- The document of the end-to-end example, listed as it is written:
`{foo: {bar: true, baz: [1, 2]}, hyprland: {general: {gaps_in: 5}}}`. -/
def exampleDocument : TomlMap :=
  [("foo", .mapping [("bar", .bool true), ("baz", .seq [.int 1, .int 2])]),
   ("hyprland", .mapping [("general", .mapping [("gaps_in", .int 5)])])]

/-- The key `k` with one leading literal `hyprland_` removed, if it has one. -/
def stripHyprland (k : String) : String :=
  if hasPrefix k "hyprland_" then sliceFrom k 9 else k

/-- The rewritten path of the key `k` below a parent path `p` that starts with
`hyprland`: `$`, then what follows the first 9 bytes of `p` and a `.` when `p`
is longer than 9, then the upper-cased stripped key. -/
def hyprPath (upper : String → String) (p k : String) : String :=
  if p.length > 9 then "$" ++ sliceFrom p 9 ++ "." ++ upper (stripHyprland k)
  else "$" ++ upper (stripHyprland k)

/-- Whether the event is one the loop acts on: its file has the base name of
the source file and it is a write or a create. -/
def Observed.matching (tomlFile : String) (o : Observed) : Bool :=
  filepathBase o.name == filepathBase tomlFile && (o.op &&& (opWrite ||| opCreate) != 0)

/-! ## The result is only ever appended to -/

mutual
theorem flattenDict_acc (upper : String → String) (data : TomlMap) (p : String)
    (ign : List (String × Bool)) (result : EnvVars) (mode : Bool) :
    flattenDict upper data p ign result mode = result ++ flattenDict upper data p ign [] mode := by
  match data with
  | [] => simp [flattenDict]
  | e :: rest =>
    rw [flattenDict, flattenDict_acc upper rest p ign (flattenEntry upper e p ign result mode),
      flattenEntry_acc upper e p ign result mode]
    conv_rhs =>
      rw [flattenDict, flattenDict_acc upper rest p ign (flattenEntry upper e p ign [] mode)]
    simp
theorem flattenEntry_acc (upper : String → String) (e : String × Value) (p : String)
    (ign : List (String × Bool)) (result : EnvVars) (mode : Bool) :
    flattenEntry upper e p ign result mode = result ++ flattenEntry upper e p ign [] mode := by
  match e with
  | (k, v) =>
    simp only [flattenEntry]
    split
    · simp
    · split
      · simp
      · exact flattenVal_acc upper v _ ign result mode
theorem flattenVal_acc (upper : String → String) (v : Value) (newKey : String)
    (ign : List (String × Bool)) (result : EnvVars) (mode : Bool) :
    flattenVal upper v newKey ign result mode = result ++ flattenVal upper v newKey ign [] mode := by
  match v with
  | .mapping val =>
    simp only [flattenVal]
    exact flattenDict_acc upper val newKey ign result mode
  | .seq val => cases mode <;> simp [flattenVal]
  | .bool val => cases mode <;> simp [flattenVal]
  | .int val => cases mode <;> simp [flattenVal]
  | .float text => cases mode <;> simp [flattenVal]
  | .str s => cases mode <;> simp [flattenVal]
  | .other text => cases mode <;> simp [flattenVal]
end

theorem flattenDict_nil (upper : String → String) (p : String) (ign : List (String × Bool))
    (result : EnvVars) (mode : Bool) : flattenDict upper [] p ign result mode = result := by
  rw [flattenDict]

theorem flattenDict_cons (upper : String → String) (e : String × Value) (rest : TomlMap)
    (p : String) (ign : List (String × Bool)) (mode : Bool) :
    flattenDict upper (e :: rest) p ign [] mode =
      flattenEntry upper e p ign [] mode ++ flattenDict upper rest p ign [] mode := by
  rw [flattenDict, flattenDict_acc]

mutual
theorem flattenHyprDict_acc (upper : String → String) (data : TomlMap) (p : String)
    (result : HyprVars) :
    flattenHyprDict upper data p result = result ++ flattenHyprDict upper data p [] := by
  match data with
  | [] => simp [flattenHyprDict]
  | e :: rest =>
    rw [flattenHyprDict, flattenHyprDict_acc upper rest p (flattenHyprEntry upper e p result),
      flattenHyprEntry_acc upper e p result]
    conv_rhs =>
      rw [flattenHyprDict, flattenHyprDict_acc upper rest p (flattenHyprEntry upper e p [])]
    simp
theorem flattenHyprEntry_acc (upper : String → String) (e : String × Value) (p : String)
    (result : HyprVars) :
    flattenHyprEntry upper e p result = result ++ flattenHyprEntry upper e p [] := by
  match e with
  | (k, v) =>
    simp only [flattenHyprEntry]
    split
    · exact flattenHyprVal_acc upper v _ result
    · simp
theorem flattenHyprVal_acc (upper : String → String) (v : Value) (newKey : String)
    (result : HyprVars) :
    flattenHyprVal upper v newKey result = result ++ flattenHyprVal upper v newKey [] := by
  match v with
  | .mapping val =>
    simp only [flattenHyprVal]
    exact flattenHyprDict_acc upper val newKey result
  | .seq val => simp [flattenHyprVal]
  | .bool val => simp [flattenHyprVal]
  | .int val => simp [flattenHyprVal]
  | .float text => simp [flattenHyprVal]
  | .str s => simp [flattenHyprVal]
  | .other text => simp [flattenHyprVal]
end

theorem flattenHyprDict_nil (upper : String → String) (p : String) (result : HyprVars) :
    flattenHyprDict upper [] p result = result := by
  rw [flattenHyprDict]

theorem flattenHyprDict_cons (upper : String → String) (e : String × Value) (rest : TomlMap)
    (p : String) :
    flattenHyprDict upper (e :: rest) p [] =
      flattenHyprEntry upper e p [] ++ flattenHyprDict upper rest p [] := by
  rw [flattenHyprDict, flattenHyprDict_acc]

/-! ## Which keys reach which output -/

theorem lookupBool_reserved {k : String} (h : isReservedHyprland k = true) :
    lookupBool envIgnoredKeys k = true := by
  simp only [isReservedHyprland, Bool.or_eq_true, beq_iff_eq] at h
  rcases h with ((h | h) | h) | h <;> subst h <;> decide

theorem flattenEntry_reserved (upper : String → String) (e : String × Value) (p : String)
    (result : EnvVars) (mode : Bool) (h : isReservedHyprland e.1 = true) :
    flattenEntry upper e p envIgnoredKeys result mode = result := by
  obtain ⟨k, v⟩ := e
  simp only [flattenEntry]
  rw [lookupBool_reserved h]
  simp

theorem flattenDict_filter_reserved (upper : String → String) (D : TomlMap) (p : String)
    (result : EnvVars) (mode : Bool) :
    flattenDict upper D p envIgnoredKeys result mode =
      flattenDict upper (D.filter (fun e => !isReservedHyprland e.1)) p envIgnoredKeys
        result mode := by
  induction D generalizing result with
  | nil => rfl
  | cons e rest ih =>
    by_cases h : isReservedHyprland e.1 = true
    · rw [List.filter_cons_of_neg (by simpa using h), flattenDict,
        flattenEntry_reserved upper e p result mode h]
      exact ih result
    · rw [List.filter_cons_of_pos (by simpa using h), flattenDict, flattenDict]
      exact ih _

theorem flattenHyprEntry_root_skip (upper : String → String) (e : String × Value)
    (result : HyprVars) (h : hasPrefix e.1 "hyprland" = false) :
    flattenHyprEntry upper e "" result = result := by
  obtain ⟨k, v⟩ := e
  have h0 : hasPrefix "" "hyprland" = false := by decide
  simp only [flattenHyprEntry]
  simp only at h
  rw [h, h0]
  simp

theorem flattenHyprDict_filter (upper : String → String) (D : TomlMap) (result : HyprVars) :
    flattenHyprDict upper D "" result =
      flattenHyprDict upper (D.filter (fun e => hasPrefix e.1 "hyprland")) "" result := by
  induction D generalizing result with
  | nil => rfl
  | cons e rest ih =>
    by_cases h : hasPrefix e.1 "hyprland" = true
    · have hf : (e :: rest).filter (fun e => hasPrefix e.1 "hyprland") =
          e :: rest.filter (fun e => hasPrefix e.1 "hyprland") := by
        simp [List.filter_cons, h]
      rw [hf, flattenHyprDict, flattenHyprDict]
      exact ih _
    · have hf : (e :: rest).filter (fun e => hasPrefix e.1 "hyprland") =
          rest.filter (fun e => hasPrefix e.1 "hyprland") := by
        simp [List.filter_cons, h]
      rw [hf, flattenHyprDict, flattenHyprEntry_root_skip upper e result (by simpa using h)]
      exact ih result

/-- C1 (as stated, refuted): the root key `hyprland_y` starts with `hyprland`,
yet its line is in the Env output, which therefore differs from the output
for the document without that key. -/
theorem env_partition_counterexample :
    hasPrefix "hyprland_y" "hyprland" = true ∧
    flattenDict asciiUpper [("hyprland_y", Value.int 5)] "" envIgnoredKeys [] true
      = ["export HYPRLAND_Y=5"] ∧
    flattenDict asciiUpper [("hyprland_y", Value.int 5)] "" envIgnoredKeys [] true ≠
      flattenDict asciiUpper
        ([("hyprland_y", Value.int 5)].filter (fun e => !hasPrefix e.1 "hyprland")) ""
        envIgnoredKeys [] true := by
  decide

/-- C1 (amended): for every document and either export mode, the Env
flattener, started with the empty parent path and the reserved keys of
`parseTomlToEnvWithContent`, produces the same lines as for the document with
every root key that is exactly `hyprland`, `hyprland-ipc`, `hyprland-env` or
`hyprland-start` removed together with its subtree. -/
theorem env_output_without_reserved_hyprland_keys (upper : String → String) (D : TomlMap)
    (exportMode : Bool) :
    flattenDict upper D "" envIgnoredKeys [] exportMode =
      flattenDict upper (D.filter (fun e => !isReservedHyprland e.1)) "" envIgnoredKeys []
        exportMode :=
  flattenDict_filter_reserved upper D "" [] exportMode

/-- C2: for every document, the Hypr flattener started with the empty parent
path produces the same lines as for the document restricted to the root keys
that start with `hyprland`, and no line at all when no root key starts with
`hyprland`. -/
theorem hypr_output_only_from_hyprland_root_keys (upper : String → String) (D : TomlMap) :
    flattenHyprDict upper D "" [] =
      flattenHyprDict upper (D.filter (fun e => hasPrefix e.1 "hyprland")) "" [] ∧
    ((∀ e ∈ D, hasPrefix e.1 "hyprland" = false) → flattenHyprDict upper D "" [] = []) := by
  refine ⟨flattenHyprDict_filter upper D [], fun h => ?_⟩
  rw [flattenHyprDict_filter upper D []]
  have hf : D.filter (fun e => hasPrefix e.1 "hyprland") = [] := by
    rw [List.filter_eq_nil_iff]
    intro e he
    simp [h e he]
  rw [hf, flattenHyprDict_nil]

/-- C2 at a document with a `hyprland` section next to other keys, and at one
without any `hyprland` root key. -/
theorem hypr_output_only_from_hyprland_root_keys_witness :
    flattenHyprDict asciiUpper
        [("foo", .mapping [("hyprland_x", .int 1)]),
         ("hyprland", .mapping [("browser", .str "firefox")])] "" [] =
      flattenHyprDict asciiUpper [("hyprland", .mapping [("browser", .str "firefox")])] "" [] ∧
    flattenHyprDict asciiUpper [("foo", .mapping [("hyprland_x", .int 1)])] "" [] = [] :=
  ⟨(hypr_output_only_from_hyprland_root_keys asciiUpper
      [("foo", .mapping [("hyprland_x", .int 1)]),
       ("hyprland", .mapping [("browser", .str "firefox")])]).1,
   (hypr_output_only_from_hyprland_root_keys asciiUpper
      [("foo", .mapping [("hyprland_x", .int 1)])]).2 (by decide)⟩

/-! ## The shape of an Env line -/

theorem exportWord_append (mode : Bool) (K rest : String) :
    (if mode then [("export " ++ K ++ "=" ++ rest : String)] else [K ++ "=" ++ rest]) =
      [exportWord mode ++ K ++ "=" ++ rest] := by
  cases mode <;> simp [exportWord]

theorem flattenVal_leaf (upper : String → String) (v : Value) (K : String)
    (ign : List (String × Bool)) (mode : Bool) (hv : v.isMapping = false) :
    flattenVal upper v K ign [] mode = [envLine mode K v] := by
  cases v with
  | mapping val => simp [Value.isMapping] at hv
  | seq val => cases mode <;> simp [flattenVal, envLine, envValue, exportWord]
  | bool val => cases mode <;> simp [flattenVal, envLine, envValue, exportWord, formatBool]
  | int val => cases mode <;> simp [flattenVal, envLine, envValue, exportWord, fmtInt]
  | float text => cases mode <;> simp [flattenVal, envLine, envValue, exportWord]
  | str s =>
    cases mode <;> simp [flattenVal, envLine, envValue, exportWord, String.append_assoc] <;> rfl
  | other text =>
    cases mode <;> simp [flattenVal, envLine, envValue, exportWord, String.append_assoc] <;> rfl

theorem envLine_export (K : String) (v : Value) :
    envLine true K v = "export " ++ envLine false K v := by
  simp [envLine, exportWord, String.append_assoc]

mutual
theorem flattenDict_export (upper : String → String) (data : TomlMap) (p : String)
    (ign : List (String × Bool)) :
    flattenDict upper data p ign [] true =
      (flattenDict upper data p ign [] false).map (fun line => "export " ++ line) := by
  match data with
  | [] => simp [flattenDict_nil]
  | e :: rest =>
    rw [flattenDict_cons, flattenDict_cons, List.map_append, flattenEntry_export upper e p ign,
      flattenDict_export upper rest p ign]
theorem flattenEntry_export (upper : String → String) (e : String × Value) (p : String)
    (ign : List (String × Bool)) :
    flattenEntry upper e p ign [] true =
      (flattenEntry upper e p ign [] false).map (fun line => "export " ++ line) := by
  match e with
  | (k, v) =>
    simp only [flattenEntry]
    split
    · simp
    · split
      · simp
      · exact flattenVal_export upper v _ ign
theorem flattenVal_export (upper : String → String) (v : Value) (newKey : String)
    (ign : List (String × Bool)) :
    flattenVal upper v newKey ign [] true =
      (flattenVal upper v newKey ign [] false).map (fun line => "export " ++ line) := by
  match v with
  | .mapping val =>
    simp only [flattenVal]
    exact flattenDict_export upper val newKey ign
  | .seq val => simp [flattenVal, String.append_assoc]
  | .bool val => simp [flattenVal, String.append_assoc]
  | .int val => simp [flattenVal, String.append_assoc]
  | .float text => simp [flattenVal, String.append_assoc]
  | .str s => simp [flattenVal, String.append_assoc]
  | .other text => simp [flattenVal, String.append_assoc]
end

mutual
theorem flattenDict_lines (upper : String → String) (data : TomlMap) (p : String)
    (ign : List (String × Bool)) (mode : Bool) (line : String)
    (h : line ∈ flattenDict upper data p ign [] mode) :
    ∃ K v, Value.isMapping v = false ∧ line = envLine mode K v := by
  match data with
  | [] => simp [flattenDict_nil] at h
  | e :: rest =>
    rw [flattenDict_cons, List.mem_append] at h
    rcases h with h | h
    · exact flattenEntry_lines upper e p ign mode line h
    · exact flattenDict_lines upper rest p ign mode line h
theorem flattenEntry_lines (upper : String → String) (e : String × Value) (p : String)
    (ign : List (String × Bool)) (mode : Bool) (line : String)
    (h : line ∈ flattenEntry upper e p ign [] mode) :
    ∃ K v, Value.isMapping v = false ∧ line = envLine mode K v := by
  match e with
  | (k, v) =>
    simp only [flattenEntry] at h
    split at h
    · simp at h
    · split at h
      · simp at h
      · exact flattenVal_lines upper v _ ign mode line h
theorem flattenVal_lines (upper : String → String) (v : Value) (newKey : String)
    (ign : List (String × Bool)) (mode : Bool) (line : String)
    (h : line ∈ flattenVal upper v newKey ign [] mode) :
    ∃ K v, Value.isMapping v = false ∧ line = envLine mode K v := by
  match v with
  | .mapping val =>
    simp only [flattenVal] at h
    exact flattenDict_lines upper val newKey ign mode line h
  | .seq val =>
    rw [flattenVal_leaf upper (.seq val) newKey ign mode rfl, List.mem_singleton] at h
    exact ⟨newKey, .seq val, rfl, h⟩
  | .bool val =>
    rw [flattenVal_leaf upper (.bool val) newKey ign mode rfl, List.mem_singleton] at h
    exact ⟨newKey, .bool val, rfl, h⟩
  | .int val =>
    rw [flattenVal_leaf upper (.int val) newKey ign mode rfl, List.mem_singleton] at h
    exact ⟨newKey, .int val, rfl, h⟩
  | .float text =>
    rw [flattenVal_leaf upper (.float text) newKey ign mode rfl, List.mem_singleton] at h
    exact ⟨newKey, .float text, rfl, h⟩
  | .str s =>
    rw [flattenVal_leaf upper (.str s) newKey ign mode rfl, List.mem_singleton] at h
    exact ⟨newKey, .str s, rfl, h⟩
  | .other text =>
    rw [flattenVal_leaf upper (.other text) newKey ign mode rfl, List.mem_singleton] at h
    exact ⟨newKey, .other text, rfl, h⟩
end

/-- C5: the type switch of the Env flattener appends, for a key path `K` and a
value that is not a mapping, exactly the line `P ++ K ++ "=" ++ R(v)`, where `P`
is `export ` in export mode and empty otherwise, and `R(v)` is the
parenthesised, space-joined, double-quoted elements for a sequence (`()` for
the empty one), `true` or `false` for a boolean, the decimal form for an
integer, and the string in double quotes for a string; every line of the Env
output has that shape; and the export-mode output is the plain-mode output
with `export ` put before every line. -/
theorem env_line_format (upper : String → String) (ign : List (String × Bool)) (K : String)
    (result : EnvVars) (exportMode : Bool) :
    (∀ items, flattenVal upper (.seq items) K ign result exportMode =
      result ++ [exportWord exportMode ++ K ++ "=" ++
        ("(" ++ join " " (items.map (fun item => "\"" ++ fmtV item ++ "\"")) ++ ")")]) ∧
    flattenVal upper (.seq []) K ign result exportMode =
      result ++ [exportWord exportMode ++ K ++ "=" ++ "()"] ∧
    (∀ b, flattenVal upper (.bool b) K ign result exportMode =
      result ++ [exportWord exportMode ++ K ++ "=" ++ (if b then "true" else "false")]) ∧
    (∀ i : Int, flattenVal upper (.int i) K ign result exportMode =
      result ++ [exportWord exportMode ++ K ++ "=" ++ toString i]) ∧
    (∀ s, flattenVal upper (.str s) K ign result exportMode =
      result ++ [exportWord exportMode ++ K ++ "=" ++ ("\"" ++ s ++ "\"")]) ∧
    (∀ (D : TomlMap) (parent line : String),
      line ∈ flattenDict upper D parent ign [] exportMode →
        ∃ K v, Value.isMapping v = false ∧ line = envLine exportMode K v) ∧
    (∀ (D : TomlMap) (parent : String),
      flattenDict upper D parent ign [] true =
        (flattenDict upper D parent ign [] false).map (fun line => "export " ++ line)) := by
  refine ⟨fun items => ?_, ?_, fun b => ?_, fun i => ?_, fun s => ?_, ?_, ?_⟩
  · rw [flattenVal_acc, flattenVal_leaf upper (.seq items) K ign exportMode rfl]; rfl
  · rw [flattenVal_acc, flattenVal_leaf upper (.seq []) K ign exportMode rfl]; rfl
  · rw [flattenVal_acc, flattenVal_leaf upper (.bool b) K ign exportMode rfl]; rfl
  · rw [flattenVal_acc, flattenVal_leaf upper (.int i) K ign exportMode rfl]; rfl
  · rw [flattenVal_acc, flattenVal_leaf upper (.str s) K ign exportMode rfl]; rfl
  · exact fun D parent line h => flattenDict_lines upper D parent ign exportMode line h
  · exact fun D parent => flattenDict_export upper D parent ign

/-! ## Key paths of the Env output -/

theorem not_hyprland_append_underscore (P u : List Char)
    (h : ¬ "hyprland".data <+: P) : ¬ "hyprland".data <+: P ++ '_' :: u := by
  intro hp
  rcases List.prefix_or_prefix_of_prefix hp (List.prefix_append P _) with h1 | h1
  · exact h h1
  · obtain ⟨t, ht⟩ := h1
    obtain ⟨r, hr⟩ := hp
    rw [← ht, List.append_assoc] at hr
    have hr2 := List.append_cancel_left hr
    cases t with
    | nil =>
      apply h
      rw [← ht]
      simp
    | cons c t2 =>
      simp only [List.cons_append, List.cons.injEq] at hr2
      have hmem : '_' ∈ "hyprland".data := by
        rw [← ht, hr2.1]
        simp
      revert hmem
      decide

theorem hasPrefix_step (upper : String → String)
    (hU : ∀ s, hasPrefix (upper s) "hyprland" = false) (P k : String)
    (hP : hasPrefix P "hyprland" = false) :
    hasPrefix (envKeyStep upper P k) "hyprland" = false := by
  unfold envKeyStep
  split
  · have h1 : ¬ "hyprland".data <+: P.data := by
      intro hc
      have : hasPrefix P "hyprland" = true := by
        simpa [hasPrefix] using hc
      rw [hP] at this
      exact Bool.noConfusion this
    have h2 := not_hyprland_append_underscore P.data (upper k).data h1
    have h3 : (P ++ "_" ++ upper k).data = P.data ++ '_' :: (upper k).data := by
      simp [String.data_append]
    rw [Bool.eq_false_iff]
    intro hc
    apply h2
    rw [← h3]
    simpa [hasPrefix] using hc
  · exact hU k

theorem upperByte_ne_h (c : Char) : upperByte c ≠ 'h' := by
  unfold upperByte
  split
  · rename_i hc
    have key : ∀ n, 65 ≤ n → n ≤ 90 → Char.ofNat n ≠ 'h' := by
      intro n h1 h2
      interval_cases n <;> decide
    exact key _ (by omega) (by omega)
  · rename_i hc
    intro h
    apply hc
    rw [h]
    decide

theorem asciiUpper_not_hyprland (s : String) : hasPrefix (asciiUpper s) "hyprland" = false := by
  rw [Bool.eq_false_iff]
  intro hc
  have h1 : "hyprland".data <+: s.data.map upperByte := by
    simpa [hasPrefix, asciiUpper] using hc
  obtain ⟨t, ht⟩ := h1
  cases hs : s.data with
  | nil =>
    rw [hs] at ht
    simp at ht
  | cons c cs =>
    rw [hs] at ht
    have : 'h' = upperByte c := by
      have h5 := congrArg List.head? ht
      simpa using h5
    exact upperByte_ne_h c this.symm

theorem admissibleKey_false_of_skip {k : String}
    (h : (lookupBool envIgnoredKeys k || hasPrefix k "$") = true) : admissibleKey k = false := by
  unfold admissibleKey
  rcases Bool.or_eq_true_iff.mp h with h1 | h1 <;> simp [h1]

mutual
theorem flattenDict_leaves (upper : String → String)
    (hU : ∀ s, hasPrefix (upper s) "hyprland" = false) (data : TomlMap) (P : String)
    (hP : hasPrefix P "hyprland" = false) (mode : Bool) :
    flattenDict upper data P envIgnoredKeys [] mode =
      ((leaves data).filter (fun c => c.1.all admissibleKey)).map
        (fun c => envLine mode (c.1.foldl (envKeyStep upper) P) c.2) := by
  match data with
  | [] => simp [flattenDict_nil, leaves]
  | e :: rest =>
    rw [flattenDict_cons, flattenEntry_leaves upper hU e P hP mode,
      flattenDict_leaves upper hU rest P hP mode]
    simp [leaves]
theorem flattenEntry_leaves (upper : String → String)
    (hU : ∀ s, hasPrefix (upper s) "hyprland" = false) (e : String × Value) (P : String)
    (hP : hasPrefix P "hyprland" = false) (mode : Bool) :
    flattenEntry upper e P envIgnoredKeys [] mode =
      ((leavesEntry e).filter (fun c => c.1.all admissibleKey)).map
        (fun c => envLine mode (c.1.foldl (envKeyStep upper) P) c.2) := by
  match e with
  | (k, v) =>
    simp only [flattenEntry, leavesEntry, hP, Bool.and_false, Bool.or_false]
    rw [List.filter_map, List.map_map]
    by_cases hk : admissibleKey k = true
    · have hk2 := hk
      simp only [admissibleKey, Bool.and_eq_true, Bool.not_eq_true'] at hk2
      rw [if_neg (by simp [hk2.1]), if_neg (by simp [hk2.2])]
      have hstep := hasPrefix_step upper hU P k hP
      have hval := flattenVal_leaves upper hU v (envKeyStep upper P k) hstep mode
      unfold envKeyStep at hval
      rw [hval]
      have hf : ((fun c : List String × Value => c.1.all admissibleKey) ∘
          fun c : List String × Value => (k :: c.1, c.2)) =
            fun c : List String × Value => c.1.all admissibleKey := by
        funext c
        simp [hk]
      rw [hf]
      rfl
    · have hk2 : admissibleKey k = false := by simpa using hk
      have hf : ((fun c : List String × Value => c.1.all admissibleKey) ∘
          fun c : List String × Value => (k :: c.1, c.2)) = fun _ => false := by
        funext c
        simp [hk2]
      rw [hf]
      simp only [admissibleKey, Bool.and_eq_false_iff, Bool.not_eq_false'] at hk2
      rcases hk2 with h1 | h1
      · simp [h1]
      · simp [h1]
theorem flattenVal_leaves (upper : String → String)
    (hU : ∀ s, hasPrefix (upper s) "hyprland" = false) (v : Value) (K : String)
    (hK : hasPrefix K "hyprland" = false) (mode : Bool) :
    flattenVal upper v K envIgnoredKeys [] mode =
      ((leavesVal v).filter (fun c => c.1.all admissibleKey)).map
        (fun c => envLine mode (c.1.foldl (envKeyStep upper) K) c.2) := by
  match v with
  | .mapping val =>
    simp only [flattenVal, leavesVal]
    exact flattenDict_leaves upper hU val K hK mode
  | .seq val =>
    rw [flattenVal_leaf upper (.seq val) K envIgnoredKeys mode rfl]
    simp [leavesVal]
  | .bool val =>
    rw [flattenVal_leaf upper (.bool val) K envIgnoredKeys mode rfl]
    simp [leavesVal]
  | .int val =>
    rw [flattenVal_leaf upper (.int val) K envIgnoredKeys mode rfl]
    simp [leavesVal]
  | .float text =>
    rw [flattenVal_leaf upper (.float text) K envIgnoredKeys mode rfl]
    simp [leavesVal]
  | .str s =>
    rw [flattenVal_leaf upper (.str s) K envIgnoredKeys mode rfl]
    simp [leavesVal]
  | .other text =>
    rw [flattenVal_leaf upper (.other text) K envIgnoredKeys mode rfl]
    simp [leavesVal]
end

theorem join_cons_append (P u : String) (l : List String) :
    join "_" ((P ++ "_" ++ u) :: l) = join "_" (P :: u :: l) := by
  cases l with
  | nil => simp [join, String.append_assoc]
  | cons b r => simp [join, String.append_assoc]

theorem foldl_envKeyStep (upper : String → String) (ks : List String) (P : String)
    (hP : P ≠ "") (h : ∀ k ∈ ks, upper k ≠ "") :
    ks.foldl (envKeyStep upper) P = join "_" (P :: ks.map upper) := by
  induction ks generalizing P with
  | nil => simp [join]
  | cons k rest ih =>
    have hne : P ++ "_" ++ upper k ≠ "" := by
      intro hc
      have hd := congrArg String.data hc
      simp at hd
    have hs : envKeyStep upper P k = P ++ "_" ++ upper k := by
      simp [envKeyStep, hP]
    rw [List.foldl_cons, hs, ih _ hne (fun x hx => h x (List.mem_cons_of_mem _ hx)),
      join_cons_append]
    rfl

theorem envKeyPath_eq_joined (upper : String → String) (ks : List String)
    (h : ∀ k ∈ ks, upper k ≠ "") : envKeyPath upper ks = joinedKeyPath upper ks := by
  cases ks with
  | nil => rfl
  | cons k rest =>
    have hs : envKeyStep upper "" k = upper k := by simp [envKeyStep]
    unfold envKeyPath joinedKeyPath
    rw [List.foldl_cons, hs,
      foldl_envKeyStep upper rest (upper k) (h k (List.mem_cons_self _ _))
        (fun x hx => h x (List.mem_cons_of_mem _ hx))]
    rfl

/-- C4 (as stated, refuted): the value reached through the chain of the empty
key and `a` (neither reserved nor starting with `$`) gets the key part `A`,
not `UPPER(k1)_UPPER(k2)`, which is `_A`. -/
theorem env_key_path_counterexample :
    (["", "a"].all admissibleKey) = true ∧
    flattenDict asciiUpper [("", .mapping [("a", .int 1)])] "" envIgnoredKeys [] true
      = ["export A=1"] ∧
    ((leaves [("", .mapping [("a", .int 1)])]).filter (fun c => c.1.all admissibleKey)).map
        (fun c => envLine true (joinedKeyPath asciiUpper c.1) c.2) = ["export _A=1"] ∧
    flattenDict asciiUpper [("", .mapping [("a", .int 1)])] "" envIgnoredKeys [] true ≠
      ((leaves [("", .mapping [("a", .int 1)])]).filter (fun c => c.1.all admissibleKey)).map
        (fun c => envLine true (joinedKeyPath asciiUpper c.1) c.2) := by
  decide

/-- C4 (amended): when upper-casing never yields a text that starts with
`hyprland`, the Env output has exactly one line for every non-mapping value
reached through a chain of keys none of which is reserved or starts with `$`,
in the order visited, and no other line. The key part of that line is built
from the root one key at a time, `uppercase(k)` where the parent's key path is
empty and `parent_UPPERKEY` otherwise: it is `uppercase(k1)` for a root key, and
`UPPER(k1)_..._UPPER(kn)` whenever no key of the chain has an empty upper-case
form. -/
theorem env_key_paths (upper : String → String)
    (hU : ∀ s, hasPrefix (upper s) "hyprland" = false) (D : TomlMap) (exportMode : Bool) :
    flattenDict upper D "" envIgnoredKeys [] exportMode =
      ((leaves D).filter (fun c => c.1.all admissibleKey)).map
        (fun c => envLine exportMode (envKeyPath upper c.1) c.2) ∧
    (∀ k, envKeyPath upper [k] = upper k) ∧
    (∀ ks, (∀ k ∈ ks, upper k ≠ "") → envKeyPath upper ks = joinedKeyPath upper ks) := by
  refine ⟨?_, fun k => ?_, fun ks h => envKeyPath_eq_joined upper ks h⟩
  · exact flattenDict_leaves upper hU D "" (by decide) exportMode
  · simp [envKeyPath, envKeyStep]

/-- C4 (amended) at a two-level document with a `$` key and a reserved
section, read with the ASCII upper-casing: one line, for `foo.bar`. -/
theorem env_key_paths_witness :
    (∀ s, hasPrefix (asciiUpper s) "hyprland" = false) ∧
    flattenDict asciiUpper
        [("foo", .mapping [("bar", .bool true), ("$x", .int 1)]),
         ("hyprland", .mapping [("a", .int 2)])]
        "" envIgnoredKeys [] false = ["FOO_BAR=true"] ∧
    ((leaves [("foo", .mapping [("bar", .bool true), ("$x", .int 1)]),
          ("hyprland", .mapping [("a", .int 2)])]).filter
        (fun c => c.1.all admissibleKey)).map
        (fun c => envLine false (envKeyPath asciiUpper c.1) c.2) = ["FOO_BAR=true"] ∧
    envKeyPath asciiUpper ["foo", "bar"] = joinedKeyPath asciiUpper ["foo", "bar"] :=
  ⟨asciiUpper_not_hyprland,
   ((env_key_paths asciiUpper asciiUpper_not_hyprland
      [("foo", .mapping [("bar", .bool true), ("$x", .int 1)]),
       ("hyprland", .mapping [("a", .int 2)])] false).1).trans (by decide),
   by decide,
   (env_key_paths asciiUpper asciiUpper_not_hyprland [] false).2.2 ["foo", "bar"]
     (by decide)⟩

/-! ## The order of the lines -/

theorem flattenDict_perm (upper : String → String) (ign : List (String × Bool)) (mode : Bool)
    {d d₂ : TomlMap} (h : SameMap d d₂) (P : String) :
    (flattenDict upper d P ign [] mode).Perm (flattenDict upper d₂ P ign [] mode) := by
  induction h generalizing P with
  | refl m => exact List.Perm.refl _
  | swap a b m =>
    simp only [flattenDict_cons]
    rw [← List.append_assoc, ← List.append_assoc]
    exact List.Perm.append_right _ List.perm_append_comm
  | cons e _ ih =>
    simp only [flattenDict_cons]
    exact List.Perm.append_left _ (ih P)
  | nested k m _ ih =>
    simp only [flattenDict_cons]
    apply List.Perm.append_right
    simp only [flattenEntry, flattenVal]
    split
    · exact List.Perm.refl _
    · split
      · exact List.Perm.refl _
      · exact ih _
  | trans _ _ ih1 ih2 => exact (ih1 P).trans (ih2 P)

theorem flattenHyprDict_perm (upper : String → String) {d d₂ : TomlMap} (h : SameMap d d₂)
    (P : String) : (flattenHyprDict upper d P []).Perm (flattenHyprDict upper d₂ P []) := by
  induction h generalizing P with
  | refl m => exact List.Perm.refl _
  | swap a b m =>
    simp only [flattenHyprDict_cons]
    rw [← List.append_assoc, ← List.append_assoc]
    exact List.Perm.append_right _ List.perm_append_comm
  | cons e _ ih =>
    simp only [flattenHyprDict_cons]
    exact List.Perm.append_left _ (ih P)
  | nested k m _ ih =>
    simp only [flattenHyprDict_cons]
    apply List.Perm.append_right
    simp only [flattenHyprEntry, flattenHyprVal]
    split
    · exact ih _
    · exact List.Perm.refl _
  | trans _ _ ih1 ih2 => exact (ih1 P).trans (ih2 P)

/-- C7 (as stated, refuted): the same document visited in two orders gives
Env outputs, and Hypr outputs, whose lines are in different orders. -/
theorem flatten_order_counterexample :
    SameMap [("a", .int 1), ("b", .int 2)] [("b", .int 2), ("a", .int 1)] ∧
    flattenDict asciiUpper [("a", .int 1), ("b", .int 2)] "" envIgnoredKeys [] true
      = ["export A=1", "export B=2"] ∧
    flattenDict asciiUpper [("b", .int 2), ("a", .int 1)] "" envIgnoredKeys [] true
      = ["export B=2", "export A=1"] ∧
    flattenDict asciiUpper [("a", .int 1), ("b", .int 2)] "" envIgnoredKeys [] true ≠
      flattenDict asciiUpper [("b", .int 2), ("a", .int 1)] "" envIgnoredKeys [] true ∧
    SameMap [("hyprland", .mapping [("a", .int 1), ("b", .int 2)])]
      [("hyprland", .mapping [("b", .int 2), ("a", .int 1)])] ∧
    flattenHyprDict asciiUpper [("hyprland", .mapping [("a", .int 1), ("b", .int 2)])] "" [] ≠
      flattenHyprDict asciiUpper [("hyprland", .mapping [("b", .int 2), ("a", .int 1)])] "" [] :=
  ⟨SameMap.swap _ _ _, by decide, by decide, by decide,
   SameMap.nested _ _ (SameMap.swap _ _ _), by decide⟩

/-- C7 (amended): for every document and export mode, two runs of the Env
flattener that visit the entries of the document's mappings in different
orders produce the same lines with the same multiplicities, one output being
a permutation of the other; likewise two runs of the Hypr flattener. -/
theorem flatten_same_lines_in_any_order (upper : String → String) (D D₂ : TomlMap)
    (h : SameMap D D₂) (exportMode : Bool) :
    (flattenDict upper D "" envIgnoredKeys [] exportMode).Perm
      (flattenDict upper D₂ "" envIgnoredKeys [] exportMode) ∧
    (flattenHyprDict upper D "" []).Perm (flattenHyprDict upper D₂ "" []) :=
  ⟨flattenDict_perm upper envIgnoredKeys exportMode h "", flattenHyprDict_perm upper h ""⟩

/-- C7 (amended) at a document whose two root entries are visited in either
order. -/
theorem flatten_same_lines_in_any_order_witness :
    SameMap [("a", .int 1), ("hyprland", .mapping [("b", .int 2)])]
      [("hyprland", .mapping [("b", .int 2)]), ("a", .int 1)] ∧
    (flattenDict asciiUpper [("a", .int 1), ("hyprland", .mapping [("b", .int 2)])] ""
        envIgnoredKeys [] true).Perm
      (flattenDict asciiUpper [("hyprland", .mapping [("b", .int 2)]), ("a", .int 1)] ""
        envIgnoredKeys [] true) ∧
    (flattenHyprDict asciiUpper [("a", .int 1), ("hyprland", .mapping [("b", .int 2)])] ""
        []).Perm
      (flattenHyprDict asciiUpper [("hyprland", .mapping [("b", .int 2)]), ("a", .int 1)] ""
        []) :=
  ⟨SameMap.swap _ _ _,
   flatten_same_lines_in_any_order asciiUpper _ _ (SameMap.swap _ _ _) true⟩

/-! ## The end-to-end example -/

/-- C3 (as stated, refuted): for the example document the Hypr flattener
yields no line, so not the line `$GENERAL.GAPS_IN=5`: below `general` the
parent path is `$GENERAL`, and `gaps_in` is out of scope. -/
theorem example_hypr_counterexample :
    flattenHyprDict asciiUpper exampleDocument "" [] = [] ∧
    flattenHyprDict asciiUpper exampleDocument "" [] ≠ ["$GENERAL.GAPS_IN=5"] ∧
    flattenHyprEntry asciiUpper ("gaps_in", .int 5) "$GENERAL" [] = [] := by
  decide

/-- C3 (amended): for the example document, in whatever order its mappings
are visited, with export mode on the Env flattener yields exactly the lines
`export FOO_BAR=true` and `export FOO_BAZ=("1" "2")`, and the Hypr flattener
yields no line. -/
theorem example_outputs (D : TomlMap) (h : SameMap exampleDocument D) :
    (flattenDict asciiUpper D "" envIgnoredKeys [] true).Perm
      ["export FOO_BAR=true", "export FOO_BAZ=(\"1\" \"2\")"] ∧
    flattenHyprDict asciiUpper D "" [] = [] := by
  have h1 := flattenDict_perm asciiUpper envIgnoredKeys true h ""
  have h2 := flattenHyprDict_perm asciiUpper h ""
  have e1 : flattenDict asciiUpper exampleDocument "" envIgnoredKeys [] true =
      ["export FOO_BAR=true", "export FOO_BAZ=(\"1\" \"2\")"] := by decide
  have e2 : flattenHyprDict asciiUpper exampleDocument "" [] = [] := by decide
  rw [e1] at h1
  rw [e2] at h2
  exact ⟨h1.symm, List.Perm.eq_nil h2.symm⟩

/-- C3 (amended) at the document visited with `hyprland` before `foo` and
`baz` before `bar`. -/
theorem example_outputs_witness :
    SameMap exampleDocument
      [("hyprland", .mapping [("general", .mapping [("gaps_in", .int 5)])]),
       ("foo", .mapping [("baz", .seq [.int 1, .int 2]), ("bar", .bool true)])] ∧
    (flattenDict asciiUpper
        [("hyprland", .mapping [("general", .mapping [("gaps_in", .int 5)])]),
         ("foo", .mapping [("baz", .seq [.int 1, .int 2]), ("bar", .bool true)])]
        "" envIgnoredKeys [] true).Perm
      ["export FOO_BAR=true", "export FOO_BAZ=(\"1\" \"2\")"] ∧
    flattenHyprDict asciiUpper
        [("hyprland", .mapping [("general", .mapping [("gaps_in", .int 5)])]),
         ("foo", .mapping [("baz", .seq [.int 1, .int 2]), ("bar", .bool true)])]
        "" [] = [] :=
  ⟨SameMap.trans (SameMap.nested _ _ (SameMap.swap _ _ _)) (SameMap.swap _ _ _),
   example_outputs _ (SameMap.trans (SameMap.nested _ _ (SameMap.swap _ _ _)) (SameMap.swap _ _ _))⟩

/-! ## Key paths of the Hypr output -/

theorem replaceFirst_hyprland (k : String) (h : hasPrefix k "hyprland_" = true) :
    replaceFirst k "hyprland_" "" = sliceFrom k 9 := by
  unfold replaceFirst sliceFrom
  unfold hasPrefix at h
  cases hk : k.data with
  | nil =>
    rw [hk] at h
    exact absurd h (by decide)
  | cons c cs =>
    rw [hk] at h
    rw [replaceFirstBytes, if_pos h]
    rfl

theorem flattenHyprEntry_under_hyprland (upper : String → String) (p k : String) (v : Value)
    (hp : hasPrefix p "hyprland" = true) (result : HyprVars) :
    flattenHyprEntry upper (k, v) p result =
      flattenHyprVal upper v (hyprPath upper p k) result := by
  simp only [flattenHyprEntry, hp, Bool.or_true, Bool.not_true, Bool.and_false, if_true]
  unfold hyprPath stripHyprland
  by_cases hk : hasPrefix k "hyprland_" = true
  · rw [if_pos hk, if_pos hk, replaceFirst_hyprland k hk]
    simp
  · rw [if_neg hk, if_neg hk]
    simp

/-- C6: in the Hypr flattener, for a key `k` visited below a parent path `p`
that starts with `hyprland`, with `s` the key without one leading `hyprland_`,
the rewritten path is `$` + (`p` without its first 9 bytes) + `.` + `UPPER(s)`
when `p` is longer than 9 and `$` + `UPPER(s)` otherwise; a mapping is
flattened below that path, and any other value appends the line made of the
path, `=` and the value without quoting: a boolean as `true` or `false`, an
integer in decimal, a string as it is, a sequence as its elements joined by
`, `. The two examples of the claim hold. -/
theorem hypr_rewrite_under_hyprland (upper : String → String) (p k : String)
    (hp : hasPrefix p "hyprland" = true) (result : HyprVars) :
    (∀ val, flattenHyprEntry upper (k, .mapping val) p result =
      flattenHyprDict upper val
        (if p.length > 9 then "$" ++ sliceFrom p 9 ++ "." ++ upper (stripHyprland k)
         else "$" ++ upper (stripHyprland k)) result) ∧
    (∀ b, flattenHyprEntry upper (k, .bool b) p result =
      result ++ [(if p.length > 9 then "$" ++ sliceFrom p 9 ++ "." ++ upper (stripHyprland k)
         else "$" ++ upper (stripHyprland k)) ++ "=" ++ (if b then "true" else "false")]) ∧
    (∀ i : Int, flattenHyprEntry upper (k, .int i) p result =
      result ++ [(if p.length > 9 then "$" ++ sliceFrom p 9 ++ "." ++ upper (stripHyprland k)
         else "$" ++ upper (stripHyprland k)) ++ "=" ++ toString i]) ∧
    (∀ s, flattenHyprEntry upper (k, .str s) p result =
      result ++ [(if p.length > 9 then "$" ++ sliceFrom p 9 ++ "." ++ upper (stripHyprland k)
         else "$" ++ upper (stripHyprland k)) ++ "=" ++ s]) ∧
    (∀ items, flattenHyprEntry upper (k, .seq items) p result =
      result ++ [(if p.length > 9 then "$" ++ sliceFrom p 9 ++ "." ++ upper (stripHyprland k)
         else "$" ++ upper (stripHyprland k)) ++ "=" ++ join ", " (items.map fmtV)]) ∧
    flattenHyprDict asciiUpper [("hyprland-start", .mapping [("apptray", .str "x")])] "" []
      = ["$start.APPTRAY=x"] ∧
    flattenHyprDict asciiUpper [("hyprland", .mapping [("browser", .str "firefox")])] "" []
      = ["$BROWSER=firefox"] := by
  refine ⟨fun val => ?_, fun b => ?_, fun i => ?_, fun s => ?_, fun items => ?_,
    by decide, by decide⟩
  · rw [flattenHyprEntry_under_hyprland upper p k _ hp, flattenHyprVal]; rfl
  · rw [flattenHyprEntry_under_hyprland upper p k _ hp, flattenHyprVal]; rfl
  · rw [flattenHyprEntry_under_hyprland upper p k _ hp, flattenHyprVal]; rfl
  · rw [flattenHyprEntry_under_hyprland upper p k _ hp, flattenHyprVal]; rfl
  · rw [flattenHyprEntry_under_hyprland upper p k _ hp, flattenHyprVal]
    simp only [hyprPath]

/-- C6 at the keys `apptray` and `hyprland_gaps` below `hyprland-start`, and
at the key `browser` below `hyprland`. -/
theorem hypr_rewrite_under_hyprland_witness :
    hasPrefix "hyprland-start" "hyprland" = true ∧
    flattenHyprEntry asciiUpper ("apptray", .str "x") "hyprland-start" []
      = ["$start.APPTRAY=x"] ∧
    flattenHyprEntry asciiUpper ("hyprland_gaps", .seq [.int 1, .int 2]) "hyprland-start" []
      = ["$start.GAPS=1, 2"] ∧
    flattenHyprEntry asciiUpper ("browser", .bool true) "hyprland" ["a=b"]
      = ["a=b", "$BROWSER=true"] :=
  ⟨by decide,
   (hypr_rewrite_under_hyprland asciiUpper "hyprland-start" "apptray" (by decide) []).2.2.2.1 "x",
   (hypr_rewrite_under_hyprland asciiUpper "hyprland-start" "hyprland_gaps" (by decide)
      []).2.2.2.2.1 [.int 1, .int 2],
   (hypr_rewrite_under_hyprland asciiUpper "hyprland" "browser" (by decide) ["a=b"]).2.1 true⟩

/-! ## Loading the source file -/

/-- C8: for every filesystem, every choice of output paths and whatever the
operating system does, if the source file is missing, has byte length 0,
fails to parse or parses to an empty mapping, then `parseConfigFiles` returns
`false` and leaves the filesystem as it was: no output file and no `.tmp`
sibling is created or modified. -/
theorem parseConfigFiles_rejects_source (upper : String → String)
    (parse : String → Option TomlMap) (io : RunIO) (tomlFile envFile hyprFile : String)
    (exportMode : Bool) (fs : FS)
    (h : fs tomlFile = none ∨
      ∃ content, fs tomlFile = some content ∧
        (content.length = 0 ∨ parse content = none ∨ parse content = some [])) :
    parseConfigFiles upper parse io tomlFile envFile hyprFile exportMode fs = (false, fs) := by
  rcases h with h | ⟨content, hc, h⟩
  · simp [parseConfigFiles, h]
  · by_cases hlen : content.length = 0
    · simp [parseConfigFiles, hc, hlen]
    · by_cases hr : io.readFails = true
      · simp [parseConfigFiles, loadTomlFile, hc, hlen, hr]
      · rcases h with h | h | h
        · exact absurd h hlen
        · simp [parseConfigFiles, loadTomlFile, hc, hlen, hr, h]
        · simp [parseConfigFiles, loadTomlFile, hc, hlen, hr, h]

/-- C8 at a source file that holds only a comment and parses to the empty
mapping, and at a missing source file. -/
theorem parseConfigFiles_rejects_source_witness :
    parseConfigFiles asciiUpper (fun _ => some []) ⟨false, .none, .none⟩ "config.toml" "env"
        "hypr" true (fun p => if p = "config.toml" then some "# empty\n" else none) =
      (false, fun p => if p = "config.toml" then some "# empty\n" else none) ∧
    parseConfigFiles asciiUpper (fun _ => none) ⟨false, .none, .none⟩ "config.toml" "env"
        "hypr" true (fun _ => none) = (false, fun _ => none) :=
  ⟨parseConfigFiles_rejects_source asciiUpper (fun _ => some []) ⟨false, .none, .none⟩
      "config.toml" "env" "hypr" true
      (fun p => if p = "config.toml" then some "# empty\n" else none)
      (Or.inr ⟨"# empty\n", by decide, Or.inr (Or.inr rfl)⟩),
   parseConfigFiles_rejects_source asciiUpper (fun _ => none) ⟨false, .none, .none⟩
      "config.toml" "env" "hypr" true (fun _ => none) (Or.inl rfl)⟩

/-! ## Writing an output file -/

/-- C9 (the code at the failing input): with the target `out` holding `OLD`
and the document `{a: 1}`, when `file.Sync` fails, or a write fails after 3
bytes, the Env branch reports failure and leaves the target as it was, but
the file `out.tmp` remains, with the bytes written so far; when the rename
fails, the sibling path removes `out.tmp`. -/
theorem write_failure_leaves_temp_file :
    (parseTomlToEnvWithContent asciiUpper [("a", .int 1)] "out" true .sync
      (fun p => if p = "out" then some "OLD\n" else none)).1 = false ∧
    (parseTomlToEnvWithContent asciiUpper [("a", .int 1)] "out" true .sync
      (fun p => if p = "out" then some "OLD\n" else none)).2 "out" = some "OLD\n" ∧
    (parseTomlToEnvWithContent asciiUpper [("a", .int 1)] "out" true .sync
      (fun p => if p = "out" then some "OLD\n" else none)).2 "out.tmp"
        = some "export A=1\n" ∧
    (parseTomlToEnvWithContent asciiUpper [("a", .int 1)] "out" true (.write 3)
      (fun p => if p = "out" then some "OLD\n" else none)).1 = false ∧
    (parseTomlToEnvWithContent asciiUpper [("a", .int 1)] "out" true (.write 3)
      (fun p => if p = "out" then some "OLD\n" else none)).2 "out.tmp" = some "exp" ∧
    (parseTomlToEnvWithContent asciiUpper [("a", .int 1)] "out" true (.rename false)
      (fun p => if p = "out" then some "OLD\n" else none)).2 "out.tmp" = none ∧
    (parseTomlToEnvWithContent asciiUpper [("a", .int 1)] "out" true .none
      (fun p => if p = "out" then some "OLD\n" else none)).2 "out" = some "export A=1\n" := by
  decide

/-! ## Debouncing -/

theorem timeSub_gt (t u : Int) :
    timeSub t u > debounceInterval ↔ t - u > debounceInterval := by
  unfold timeSub minDuration maxDuration debounceInterval
  omega

theorem watchStep_matching (tomlFile : String) (lastMod : Int) (o : Observed) (m : Int)
    (hm : o.matching tomlFile = true) (hs : o.stat = some m) :
    watchStep tomlFile lastMod o =
      (if o.now - lastMod > debounceInterval then m else lastMod,
        decide (o.now - lastMod > debounceInterval)) := by
  simp only [Observed.matching, Bool.and_eq_true, beq_iff_eq, bne_iff_ne] at hm
  unfold watchStep
  rw [if_neg (by simp [hm.1]), if_pos (by simpa using hm.2), hs]
  simp only [timeSub_gt]
  by_cases h : o.now - lastMod > debounceInterval <;> simp [h]

theorem watchLoop_two (tomlFile : String) (lastMod : Int) (o1 o2 : Observed) (m1 m2 : Int)
    (hm1 : o1.matching tomlFile = true) (hs1 : o1.stat = some m1)
    (hm2 : o2.matching tomlFile = true) (hs2 : o2.stat = some m2)
    (hacc : o1.now - lastMod > debounceInterval) :
    (watchLoop tomlFile lastMod [o1, o2]).2 =
      1 + (if o2.now - m1 > debounceInterval then 1 else 0) := by
  simp only [watchLoop, watchStep_matching tomlFile lastMod o1 m1 hm1 hs1, hacc, if_true,
    decide_True, watchStep_matching tomlFile m1 o2 m2 hm2 hs2]
  by_cases h : o2.now - m1 > debounceInterval <;> simp [h]

/-- C10 (as stated, refuted), the watch starting at time 0 and all times in
nanoseconds: two write events 100 ms apart, 100 ms and 200 ms after the
start, run no pass; two write events 400 ms apart, the first 100 ms after the
start, run one pass; two write events 100 ms apart, the first 1 s after the
start for a file modified 500 ms earlier, run two passes. -/
theorem debounce_counterexample :
    ((200000000 : Int) - 100000000 < debounceInterval ∧
      (watchLoop "/c/config.toml" 0
        [⟨"/c/config.toml", opWrite, some 100000000, 100000000⟩,
         ⟨"/c/config.toml", opWrite, some 200000000, 200000000⟩]).2 = 0) ∧
    ((500000000 : Int) - 100000000 > debounceInterval ∧
      (watchLoop "/c/config.toml" 0
        [⟨"/c/config.toml", opWrite, some 100000000, 100000000⟩,
         ⟨"/c/config.toml", opWrite, some 500000000, 500000000⟩]).2 = 1) ∧
    ((1100000000 : Int) - 1000000000 < debounceInterval ∧
      (watchLoop "/c/config.toml" 0
        [⟨"/c/config.toml", opWrite, some 500000000, 1000000000⟩,
         ⟨"/c/config.toml", opWrite, some 1100000000, 1100000000⟩]).2 = 2) := by
  decide

/-- C10 (amended): for two successive matching events observed at times `t1`
and `t2`, whose `os.Stat` succeeds, the first of them accepted (`t1 - lastMod`
exceeds 300 ms) with the file's modification time `m1`: exactly one
reprocessing pass is run for the pair when `t2 - m1` is at most 300 ms, and
two passes when `t2 - m1` exceeds 300 ms. So two passes are run when
`t2 - t1` exceeds 300 ms and `m1` is not later than `t1`, and exactly one when
`t2 - t1` is below 300 ms and `m1` is `t1`. -/
theorem debounce_two_events (tomlFile : String) (lastMod : Int) (o1 o2 : Observed)
    (m1 m2 : Int)
    (hm1 : o1.matching tomlFile = true) (hs1 : o1.stat = some m1)
    (hm2 : o2.matching tomlFile = true) (hs2 : o2.stat = some m2)
    (hacc : o1.now - lastMod > debounceInterval) :
    (o2.now - m1 ≤ debounceInterval → (watchLoop tomlFile lastMod [o1, o2]).2 = 1) ∧
    (o2.now - m1 > debounceInterval → (watchLoop tomlFile lastMod [o1, o2]).2 = 2) ∧
    (m1 ≤ o1.now → o2.now - o1.now > debounceInterval →
      (watchLoop tomlFile lastMod [o1, o2]).2 = 2) ∧
    (m1 = o1.now → o2.now - o1.now < debounceInterval →
      (watchLoop tomlFile lastMod [o1, o2]).2 = 1) := by
  rw [watchLoop_two tomlFile lastMod o1 o2 m1 m2 hm1 hs1 hm2 hs2 hacc]
  refine ⟨fun h => ?_, fun h => ?_, fun h1 h2 => ?_, fun h1 h2 => ?_⟩
  · rw [if_neg (by omega)]
  · rw [if_pos h]
  · rw [if_pos (by omega)]
  · rw [if_neg (by omega)]

/-- C10 (amended) at a watch started at time 0, a first write 1 s later and
a second write 100 ms, or 400 ms, after the first. -/
theorem debounce_two_events_witness :
    (watchLoop "/c/config.toml" 0
        [⟨"/c/config.toml", opWrite, some 1000000000, 1000000000⟩,
         ⟨"/c/config.toml", opWrite, some 1100000000, 1100000000⟩]).2 = 1 ∧
    (watchLoop "/c/config.toml" 0
        [⟨"/c/config.toml", opWrite, some 1000000000, 1000000000⟩,
         ⟨"/c/config.toml", opCreate, some 1400000000, 1400000000⟩]).2 = 2 :=
  ⟨(debounce_two_events "/c/config.toml" 0
      ⟨"/c/config.toml", opWrite, some 1000000000, 1000000000⟩
      ⟨"/c/config.toml", opWrite, some 1100000000, 1100000000⟩ 1000000000 1100000000
      (by decide) rfl (by decide) rfl (by decide)).1 (by decide),
   (debounce_two_events "/c/config.toml" 0
      ⟨"/c/config.toml", opWrite, some 1000000000, 1000000000⟩
      ⟨"/c/config.toml", opCreate, some 1400000000, 1400000000⟩ 1000000000 1400000000
      (by decide) rfl (by decide) rfl (by decide)).2.1 (by decide)⟩

end HydeConfig
